import Mathlib

/-!
Shallow embedding of the command gate (`src/command-manager.ts`) and the
terminal session manager (`src/terminal-manager.ts`) of the mcp-core server,
together with proofs of the specified properties.

Strings are Lean `String`s; JavaScript `Map`s and `Set`s are modelled as
insertion-ordered association lists without duplicate keys.  The
single-threaded event loop is modelled by an explicit event type and a step
function; promises resolve by appending to a result log.
-/

/-- Character-wise lower-casing, modelling JS `toLowerCase` on the command
strings (ASCII case folding). -/
def lowerStr (s : String) : List Char := s.toList.map Char.toLower

/-- JS `String.prototype.includes`: `pat` occurs as a contiguous substring
of `s`. -/
def containsSub (pat : List Char) : List Char → Bool
  | [] => pat.isEmpty
  | c :: t => pat.isPrefixOf (c :: t) || containsSub pat t

/-- The built-in default blocked patterns of `command-manager.ts`. -/
def DEFAULT_BLOCKED_COMMANDS : List String :=
  ["format", "del /q", "rm -rf", "sudo", "chmod 777", "mkfs"]

/-- In-memory state of `CommandManager`: the `blockedCommands` set, modelled
as an insertion-ordered duplicate-free list (JS `Set<string>`). -/
structure CommandManager where
  blockedCommands : List String
deriving Repr, DecidableEq

/-- JS `Set.add`: no-op when present, otherwise append at the end. -/
def setAddStr (l : List String) (x : String) : List String :=
  if x ∈ l then l else l ++ [x]

/-- JS `Set.delete`: remove the element (exact string equality). -/
def setDeleteStr (l : List String) (x : String) : List String :=
  l.filter (fun y => y ≠ x)

/-- The pattern set produced by the `CommandManager` constructor plus
`loadConfig`: start from `DEFAULT_BLOCKED_COMMANDS` and `add` every entry of
the persisted `blockedCommands` array.  `config` is that parsed array,
`none` when the file is absent or unreadable (the catch path keeps the
defaults). -/
def mkCommandManager (config : Option (List String)) : CommandManager :=
  match config with
  | none => ⟨DEFAULT_BLOCKED_COMMANDS⟩
  | some cmds => ⟨cmds.foldl setAddStr DEFAULT_BLOCKED_COMMANDS⟩

/-- The manager when no configuration file contributes patterns. -/
def defaultCM : CommandManager := mkCommandManager none

/-- `CommandManager.isCommandBlocked`: the lower-cased command contains some
lower-cased blocked pattern as a substring (first match short-circuits). -/
def CommandManager.isCommandBlocked (m : CommandManager) (command : String) : Bool :=
  m.blockedCommands.any (fun b => containsSub (lowerStr b) (lowerStr command))

/-- Outcome of `blockCommand` / `unblockCommand`: the returned message, the
updated in-memory state, and the configuration written by `saveConfig`
(`none` when nothing was persisted). -/
structure GateResult where
  message : String
  state : CommandManager
  saved : Option (List String)
deriving Repr, DecidableEq

/-- `CommandManager.blockCommand`: reject empty / whitespace-only input,
otherwise trim, insert into the set and persist. -/
def CommandManager.blockCommand (m : CommandManager) (command : String) : GateResult :=
  if command.trim = "" then
    ⟨"Error: Cannot block empty command", m, none⟩
  else
    let t := command.trim
    let m2 : CommandManager := ⟨setAddStr m.blockedCommands t⟩
    ⟨"Successfully blocked command: " ++ t, m2, some m2.blockedCommands⟩

/-- `CommandManager.unblockCommand`: reject empty / whitespace-only input;
remove and persist when present; report not-found otherwise. -/
def CommandManager.unblockCommand (m : CommandManager) (command : String) : GateResult :=
  if command.trim = "" then
    ⟨"Error: Cannot unblock empty command", m, none⟩
  else
    let t := command.trim
    if t ∈ m.blockedCommands then
      let m2 : CommandManager := ⟨setDeleteStr m.blockedCommands t⟩
      ⟨"Successfully unblocked command: " ++ t, m2, some m2.blockedCommands⟩
    else
      ⟨"Command not found in blocklist: " ++ t, m, none⟩

/-- An active session record (`TerminalSession` of `terminal-manager.ts`,
the `process` handle dropped).  `lastOutput` stores the value of the spawn
closure's `output` variable at registration time; the executor body runs
synchronously, so that value is always the empty string, and the field is
never reassigned afterwards. -/
structure TerminalSession where
  pid : Nat
  lastOutput : String
  isBlocked : Bool
  startTime : Nat
deriving Repr, DecidableEq

/-- An archived session record (`CompletedSession`). -/
structure CompletedSession where
  pid : Nat
  output : String
  exitCode : Option Int
  startTime : Nat
  endTime : Nat
deriving Repr, DecidableEq

/-- The value a resolved `executeCommand` promise carries
(`CommandExecutionResult`); `pid` is an `Int` so the blocked sentinel `-1`
fits. -/
structure CommandExecutionResult where
  pid : Int
  output : String
  isBlocked : Bool
deriving Repr, DecidableEq

/-- Entry of `listSessions` (`ActiveSession`). -/
structure ActiveSession where
  pid : Nat
  isBlocked : Bool
  runtime : Nat
deriving Repr, DecidableEq

/-- Keys of an association list. -/
def keysOf {α : Type} (l : List (Nat × α)) : List Nat := l.map Prod.fst

/-- JS `Map.set`: replace in place when the key is present, append
otherwise. -/
def setA {α : Type} (l : List (Nat × α)) (k : Nat) (v : α) : List (Nat × α) :=
  if k ∈ keysOf l then l.map (fun p => if p.1 = k then (k, v) else p)
  else l ++ [(k, v)]

/-- JS `Map.delete`. -/
def eraseA {α : Type} (l : List (Nat × α)) (k : Nat) : List (Nat × α) :=
  l.filter (fun p => p.1 ≠ k)

/-- State of the `TerminalManager` singleton together with the spawn-time
closures it created.  `buffers` holds, per spawned pid, the closure variable
`output` that the stdout/stderr callbacks, the exit handler and the deadline
timer all share; `pending` lists pids whose `setTimeout` deadline has not
fired yet; `kills` logs the termination signals sent; `results` logs every
resolved `executeCommand` promise in resolution order. -/
structure TMState where
  sessions : List (Nat × TerminalSession)
  completedSessions : List (Nat × CompletedSession)
  nextPid : Nat
  buffers : List (Nat × String)
  pending : List Nat
  kills : List Nat
  results : List CommandExecutionResult
deriving Repr, DecidableEq

/-- The constructor state: empty maps, `nextPid = 1`. -/
def initTM : TMState := ⟨[], [], 1, [], [], [], []⟩

/-- The closure variable `output` of the session spawned as `pid` (empty
when no such spawn happened). -/
def bufferOf (s : TMState) (pid : Nat) : String :=
  (List.lookup pid s.buffers).getD ""

/-- The blocked-command result text of `executeCommand`. -/
def blockedMsg (command : String) : String :=
  "Command blocked for security reasons: " ++ command

/-- The synchronous part of `TerminalManager.executeCommand`: gate check
(blocked commands resolve at once with the `-1` sentinel and no session),
otherwise allocate `nextPid`, spawn, register the session (its `lastOutput`
snapshot of `output` still empty) and start the deadline timer. -/
def executeCommand (cm : CommandManager) (command : String) (now : Nat)
    (s : TMState) : TMState :=
  if cm.isCommandBlocked command then
    { s with results := s.results ++ [⟨-1, blockedMsg command, true⟩] }
  else
    { s with
        nextPid := s.nextPid + 1
        buffers := setA s.buffers s.nextPid ""
        sessions := setA s.sessions s.nextPid ⟨s.nextPid, "", false, now⟩
        pending := s.pending ++ [s.nextPid] }

/-- `TerminalManager.readOutput`: active sessions answer with their
`lastOutput` field, archived ones with their recorded output, and unknown
pids with a diagnostic text. -/
def readOutput (s : TMState) (pid : Nat) : String :=
  match List.lookup pid s.sessions with
  | some sess => sess.lastOutput
  | none =>
    match List.lookup pid s.completedSessions with
    | some c => c.output
    | none => "No session found with PID " ++ toString pid

/-- `TerminalManager.forceTerminate`: `false` when the pid is not active;
otherwise send the signal, archive `lastOutput` with a null exit code, drop
the active entry and return `true`. -/
def forceTerminate (s : TMState) (pid : Nat) (now : Nat) : Bool × TMState :=
  match List.lookup pid s.sessions with
  | none => (false, s)
  | some sess =>
    (true,
      { s with
          kills := s.kills ++ [pid]
          completedSessions :=
            setA s.completedSessions pid
              ⟨pid, sess.lastOutput, none, sess.startTime, now⟩
          sessions := eraseA s.sessions pid })

/-- `TerminalManager.listSessions`: every active session with its floored
elapsed runtime in seconds. -/
def listSessions (s : TMState) (now : Nat) : List ActiveSession :=
  s.sessions.map (fun p => ⟨p.1, p.2.isBlocked, (now - p.2.startTime) / 1000⟩)

/-- The discrete events the single-threaded event loop delivers: an
`executeCommand` call, an output chunk, a process exit notification, a
`forceTerminate` call, and the firing of a deadline timer. -/
inductive Event where
  | exec (command : String) (now : Nat)
  | data (pid : Nat) (chunk : String)
  | exited (pid : Nat) (code : Int) (now : Nat)
  | term (pid : Nat) (now : Nat)
  | timer (pid : Nat)
deriving Repr, DecidableEq

/-- One event-loop step.  Output chunks append to the shared closure
variable; the exit handler archives `lastOutput ++ output` only when the pid
is still active; a deadline timer fires once, resolving the promise with the
closure variable's current contents. -/
def step (cm : CommandManager) (s : TMState) : Event → TMState
  | .exec command now => executeCommand cm command now s
  | .data pid chunk =>
    match List.lookup pid s.buffers with
    | some buf => { s with buffers := setA s.buffers pid (buf ++ chunk) }
    | none => s
  | .exited pid code now =>
    match List.lookup pid s.sessions with
    | some sess =>
      { s with
          sessions := eraseA s.sessions pid
          completedSessions :=
            setA s.completedSessions pid
              ⟨pid, sess.lastOutput ++ bufferOf s pid, some code,
                sess.startTime, now⟩ }
    | none => s
  | .term pid now => (forceTerminate s pid now).2
  | .timer pid =>
    if pid ∈ s.pending then
      { s with
          pending := s.pending.filter (fun q => q ≠ pid)
          results := s.results ++ [⟨(pid : Int), bufferOf s pid, false⟩] }
    else s

/-- Run an event sequence from the constructor state. -/
def replay (cm : CommandManager) (evts : List Event) : TMState :=
  evts.foldl (step cm) initTM

lemma mem_setAddStr (l : List String) (x y : String) :
    y ∈ setAddStr l x ↔ y ∈ l ∨ y = x := by
  unfold setAddStr
  split
  · rename_i h
    constructor
    · exact Or.inl
    · rintro (hy | rfl)
      · exact hy
      · exact h
  · simp

lemma mem_foldl_setAddStr (cmds init : List String) (y : String) :
    y ∈ cmds.foldl setAddStr init ↔ y ∈ init ∨ y ∈ cmds := by
  induction cmds generalizing init with
  | nil => simp
  | cons c t ih => simp [List.foldl_cons, ih, mem_setAddStr, or_assoc]

lemma length_setAddStr (l : List String) (x : String) :
    (setAddStr l x).length = if x ∈ l then l.length else l.length + 1 := by
  unfold setAddStr
  split <;> simp

lemma not_mem_setDeleteStr (l : List String) (x : String) :
    x ∉ setDeleteStr l x := by
  unfold setDeleteStr
  simp [List.mem_filter]

lemma keysOf_setA {α : Type} (l : List (Nat × α)) (k : Nat) (v : α) :
    keysOf (setA l k v) = if k ∈ keysOf l then keysOf l else keysOf l ++ [k] := by
  unfold setA
  split
  · unfold keysOf
    rw [List.map_map]
    refine List.map_congr_left (fun p _ => ?_)
    dsimp [Function.comp]
    split <;> simp_all
  · unfold keysOf
    simp

lemma setA_of_not_mem {α : Type} (l : List (Nat × α)) (k : Nat) (v : α)
    (h : k ∉ keysOf l) : setA l k v = l ++ [(k, v)] := by
  unfold setA
  rw [if_neg h]

lemma mem_keysOf_eraseA {α : Type} (l : List (Nat × α)) (k j : Nat) :
    j ∈ keysOf (eraseA l k) ↔ j ∈ keysOf l ∧ j ≠ k := by
  unfold eraseA keysOf
  simp only [List.mem_map, List.mem_filter, decide_eq_true_eq]
  constructor
  · rintro ⟨p, ⟨hp, hpk⟩, rfl⟩
    exact ⟨⟨p, hp, rfl⟩, hpk⟩
  · rintro ⟨⟨p, hp, rfl⟩, hk⟩
    exact ⟨p, ⟨hp, hk⟩, rfl⟩

lemma lookup_eq_none_iff {α : Type} (l : List (Nat × α)) (k : Nat) :
    List.lookup k l = none ↔ k ∉ keysOf l := by
  induction l with
  | nil => simp [keysOf]
  | cons p t ih =>
    obtain ⟨a, b⟩ := p
    by_cases h : k = a
    · subst h
      simp [List.lookup, keysOf]
    · simp only [List.lookup, beq_iff_eq, h, if_neg]
      have : (k == a) = false := by simp [h]
      simp [this, ih, keysOf, h]

lemma mem_keysOf_of_lookup {α : Type} {l : List (Nat × α)} {k : Nat} {v : α}
    (h : List.lookup k l = some v) : k ∈ keysOf l := by
  by_contra hk
  rw [← lookup_eq_none_iff l k] at hk
  rw [h] at hk
  exact Option.noConfusion hk

lemma lookup_isSome_iff {α : Type} (l : List (Nat × α)) (k : Nat) :
    (List.lookup k l).isSome = true ↔ k ∈ keysOf l := by
  cases hl : List.lookup k l with
  | none =>
    simp only [Option.isSome_none, Bool.false_eq_true, false_iff]
    exact (lookup_eq_none_iff l k).mp hl
  | some v =>
    simp only [Option.isSome_some, true_iff]
    exact mem_keysOf_of_lookup hl

/-- Invariant of every reachable `TerminalManager` state: `nextPid` is at
least 1, every pid ever handed out is positive and below `nextPid`, and no
pid is simultaneously active and archived. -/
def TMInv (s : TMState) : Prop :=
  1 ≤ s.nextPid
  ∧ (∀ k ∈ keysOf s.sessions, 1 ≤ k ∧ k < s.nextPid)
  ∧ (∀ k ∈ keysOf s.completedSessions, 1 ≤ k ∧ k < s.nextPid)
  ∧ (∀ k ∈ keysOf s.buffers, 1 ≤ k ∧ k < s.nextPid)
  ∧ (∀ k ∈ keysOf s.sessions, k ∉ keysOf s.completedSessions)

lemma tminv_init : TMInv initTM := by
  refine ⟨le_refl 1, ?_, ?_, ?_, ?_⟩ <;> simp [initTM, keysOf]

lemma mem_keysOf_setA {α : Type} (l : List (Nat × α)) (k j : Nat) (v : α) :
    j ∈ keysOf (setA l k v) ↔ j ∈ keysOf l ∨ j = k := by
  rw [keysOf_setA]
  split
  · rename_i h
    constructor
    · exact Or.inl
    · rintro (hj | rfl)
      · exact hj
      · exact h
  · simp

lemma tminv_step (cm : CommandManager) (s : TMState) (e : Event)
    (h : TMInv s) : TMInv (step cm s e) := by
  obtain ⟨h1, hs, hc, hb, hd⟩ := h
  cases e with
  | exec command now =>
    simp only [step]
    unfold executeCommand
    split
    · exact ⟨h1, hs, hc, hb, hd⟩
    · have hfc : s.nextPid ∉ keysOf s.completedSessions :=
        fun hk => absurd (hc _ hk).2 (by omega)
      unfold TMInv
      dsimp only
      refine ⟨by omega, ?_, ?_, ?_, ?_⟩
      · intro k hk
        rcases (mem_keysOf_setA _ _ _ _).mp hk with hk | rfl
        · have := hs k hk
          omega
        · omega
      · intro k hk
        have := hc k hk
        omega
      · intro k hk
        rcases (mem_keysOf_setA _ _ _ _).mp hk with hk | rfl
        · have := hb k hk
          omega
        · omega
      · intro k hk
        rcases (mem_keysOf_setA _ _ _ _).mp hk with hk | rfl
        · exact hd k hk
        · exact hfc
  | data pid chunk =>
    simp only [step]
    cases hlk : List.lookup pid s.buffers with
    | none => exact ⟨h1, hs, hc, hb, hd⟩
    | some buf =>
      refine ⟨h1, hs, hc, ?_, hd⟩
      intro k hk
      rcases (mem_keysOf_setA _ _ _ _).mp hk with hk | rfl
      · exact hb k hk
      · exact hb k (mem_keysOf_of_lookup hlk)
  | exited pid code now =>
    simp only [step]
    cases hlk : List.lookup pid s.sessions with
    | none => exact ⟨h1, hs, hc, hb, hd⟩
    | some sess =>
      have hmem : pid ∈ keysOf s.sessions := mem_keysOf_of_lookup hlk
      refine ⟨h1, ?_, ?_, hb, ?_⟩
      · intro k hk
        exact hs k ((mem_keysOf_eraseA _ _ _).mp hk).1
      · intro k hk
        rcases (mem_keysOf_setA _ _ _ _).mp hk with hk | rfl
        · exact hc k hk
        · exact hs k hmem
      · intro k hk
        obtain ⟨hk, hne⟩ := (mem_keysOf_eraseA _ _ _).mp hk
        intro hcontra
        rcases (mem_keysOf_setA _ _ _ _).mp hcontra with hcontra | rfl
        · exact hd k hk hcontra
        · exact hne rfl
  | term pid now =>
    simp only [step]
    unfold forceTerminate
    cases hlk : List.lookup pid s.sessions with
    | none => exact ⟨h1, hs, hc, hb, hd⟩
    | some sess =>
      have hmem : pid ∈ keysOf s.sessions := mem_keysOf_of_lookup hlk
      refine ⟨h1, ?_, ?_, hb, ?_⟩
      · intro k hk
        exact hs k ((mem_keysOf_eraseA _ _ _).mp hk).1
      · intro k hk
        rcases (mem_keysOf_setA _ _ _ _).mp hk with hk | rfl
        · exact hc k hk
        · exact hs k hmem
      · intro k hk
        obtain ⟨hk, hne⟩ := (mem_keysOf_eraseA _ _ _).mp hk
        intro hcontra
        rcases (mem_keysOf_setA _ _ _ _).mp hcontra with hcontra | rfl
        · exact hd k hk hcontra
        · exact hne rfl
  | timer pid =>
    simp only [step]
    split
    · exact ⟨h1, hs, hc, hb, hd⟩
    · exact ⟨h1, hs, hc, hb, hd⟩

lemma tminv_foldl (cm : CommandManager) (evts : List Event) (s : TMState)
    (h : TMInv s) : TMInv (List.foldl (step cm) s evts) := by
  induction evts generalizing s with
  | nil => exact h
  | cons e t ih => exact ih _ (tminv_step cm s e h)

lemma tminv_replay (cm : CommandManager) (evts : List Event) :
    TMInv (replay cm evts) :=
  tminv_foldl cm evts initTM tminv_init

/-- Claim C1: refuted on its active branch.  After `echo hi` is spawned as
pid 1 and the chunk `"hi\n"` has been captured into the shared output
buffer, the session is still active, yet `readOutput 1` returns `""` — the
`lastOutput` snapshot taken at registration time — and not the accumulated
buffer contents `"hi\n"`.  The archived and no-such-session branches behave
as claimed. -/
theorem readOutput_active_ignores_buffer :
    1 ∈ keysOf (replay defaultCM [Event.exec "echo hi" 0, Event.data 1 "hi\n"]).sessions
  ∧ bufferOf (replay defaultCM [Event.exec "echo hi" 0, Event.data 1 "hi\n"]) 1 = "hi\n"
  ∧ readOutput (replay defaultCM [Event.exec "echo hi" 0, Event.data 1 "hi\n"]) 1 = ""
  ∧ readOutput (replay defaultCM [Event.exec "echo hi" 0, Event.data 1 "hi\n"]) 1 ≠ "hi\n" := by
  decide

/-- Claim C2: refuted for the forceTerminate transition.  With `"hello"`
captured into the buffer of active session 1, `forceTerminate 1` archives
only the stale `lastOutput` snapshot: the archived output is `""` and the
captured byte sequence `"hello"` is lost.  The process-exit transition on
the same prefix of events does preserve it. -/
theorem forceTerminate_loses_captured_output :
    bufferOf (replay defaultCM [Event.exec "cat file" 0, Event.data 1 "hello"]) 1 = "hello"
  ∧ List.lookup 1 (replay defaultCM [Event.exec "cat file" 0, Event.data 1 "hello",
      Event.term 1 5]).completedSessions
      = some ⟨1, "", none, 0, 5⟩
  ∧ readOutput (replay defaultCM [Event.exec "cat file" 0, Event.data 1 "hello",
      Event.term 1 5]) 1 = ""
  ∧ readOutput (replay defaultCM [Event.exec "cat file" 0, Event.data 1 "hello",
      Event.exited 1 0 5]) 1 = "hello" := by
  decide

/-- Claim C7: `blockCommand` rejects empty or whitespace-only patterns with
an error outcome and no change and no persist; any other pattern is trimmed
and inserted idempotently (the set and its size are unchanged when the
pattern is already present) and the resulting set is persisted. -/
theorem blockCommand_spec (m : CommandManager) (p : String) :
    (m.blockCommand p).message
      = (if p.trim = "" then "Error: Cannot block empty command"
         else "Successfully blocked command: " ++ p.trim)
  ∧ (m.blockCommand p).state.blockedCommands
      = (if p.trim = "" ∨ p.trim ∈ m.blockedCommands then m.blockedCommands
         else m.blockedCommands ++ [p.trim])
  ∧ (m.blockCommand p).state.blockedCommands.length
      = (if p.trim = "" ∨ p.trim ∈ m.blockedCommands then m.blockedCommands.length
         else m.blockedCommands.length + 1)
  ∧ (m.blockCommand p).saved
      = (if p.trim = "" then none
         else some (m.blockCommand p).state.blockedCommands) := by
  unfold CommandManager.blockCommand
  by_cases h : p.trim = ""
  · simp [h]
  · by_cases hmem : p.trim ∈ m.blockedCommands <;>
      simp [h, hmem, setAddStr]

/-- Claim C8: `unblockCommand` rejects empty or whitespace-only patterns
with an error outcome; a pattern absent from the set yields a not-found
outcome with the set unchanged and nothing persisted; a present pattern is
removed and the shrunken set is persisted. -/
theorem unblockCommand_spec (m : CommandManager) (p : String) :
    (m.unblockCommand p).message
      = (if p.trim = "" then "Error: Cannot unblock empty command"
         else if p.trim ∈ m.blockedCommands then "Successfully unblocked command: " ++ p.trim
         else "Command not found in blocklist: " ++ p.trim)
  ∧ (m.unblockCommand p).state.blockedCommands
      = (if p.trim = "" ∨ p.trim ∉ m.blockedCommands then m.blockedCommands
         else setDeleteStr m.blockedCommands p.trim)
  ∧ p.trim ∉ setDeleteStr m.blockedCommands p.trim
  ∧ (m.unblockCommand p).saved
      = (if p.trim = "" ∨ p.trim ∉ m.blockedCommands then none
         else some (m.unblockCommand p).state.blockedCommands) := by
  unfold CommandManager.unblockCommand
  refine ⟨?_, ?_, not_mem_setDeleteStr _ _, ?_⟩ <;>
    (by_cases h : p.trim = "" <;>
      by_cases hmem : p.trim ∈ m.blockedCommands <;>
        simp [h, hmem])

/-- Claim C9: the startup pattern set is exactly the union of the built-in
defaults and the persisted configuration's patterns: configuration entries
are added to the defaults, never replace them, so every default pattern —
in particular `sudo` and `rm -rf` — is present after every restart whatever
the configuration file says. -/
theorem startup_blocklist_is_union (config : Option (List String)) (c : String) :
    (c ∈ (mkCommandManager config).blockedCommands
       ↔ c ∈ DEFAULT_BLOCKED_COMMANDS ∨ c ∈ config.getD [])
  ∧ "sudo" ∈ (mkCommandManager config).blockedCommands
  ∧ "rm -rf" ∈ (mkCommandManager config).blockedCommands := by
  have key : ∀ y : String, y ∈ (mkCommandManager config).blockedCommands
      ↔ y ∈ DEFAULT_BLOCKED_COMMANDS ∨ y ∈ config.getD [] := by
    intro y
    cases config with
    | none => simp [mkCommandManager]
    | some cmds => simp [mkCommandManager, mem_foldl_setAddStr]
  refine ⟨key c, ?_, ?_⟩
  · exact (key "sudo").mpr (Or.inl (by simp [DEFAULT_BLOCKED_COMMANDS]))
  · exact (key "rm -rf").mpr (Or.inl (by simp [DEFAULT_BLOCKED_COMMANDS]))

/-- Claim C4: `forceTerminate` answers `true` exactly when the pid is
currently active — an archived pid and a never-allocated pid are both
answered `false`, indistinguishably, with the state untouched; an active
pid gets the termination signal, is archived at once with a null exit code,
and is no longer active afterwards. -/
theorem forceTerminate_spec (s : TMState) (pid now : Nat) :
    (forceTerminate s pid now).1 = (List.lookup pid s.sessions).isSome
  ∧ (forceTerminate s pid now).2
      = Option.elim (List.lookup pid s.sessions) s
          (fun sess =>
            { s with
                kills := s.kills ++ [pid]
                completedSessions :=
                  setA s.completedSessions pid
                    ⟨pid, sess.lastOutput, none, sess.startTime, now⟩
                sessions := eraseA s.sessions pid })
  ∧ pid ∉ keysOf (forceTerminate s pid now).2.sessions := by
  unfold forceTerminate
  cases hlk : List.lookup pid s.sessions with
  | none =>
    refine ⟨rfl, rfl, ?_⟩
    exact (lookup_eq_none_iff _ _).mp hlk
  | some sess =>
    refine ⟨rfl, rfl, ?_⟩
    intro hmem
    exact ((mem_keysOf_eraseA _ _ _).mp hmem).2 rfl

/-- Claim C3: `executeCommand` is blocked exactly when the lower-cased
command contains some lower-cased pattern of the set as a substring; a
blocked command resolves at once with the `-1` sentinel and the blocked
flag and registers nothing, while an unblocked command registers a fresh
active session under the freshly allocated identifier. -/
theorem executeCommand_gate_spec (cm : CommandManager) (s : TMState)
    (c : String) (now m : Nat) (hinv : TMInv s) :
    (cm.isCommandBlocked c = true
       ↔ ∃ b ∈ cm.blockedCommands, containsSub (lowerStr b) (lowerStr c) = true)
  ∧ (executeCommand cm c now s).results
      = s.results
        ++ (if cm.isCommandBlocked c then [⟨-1, blockedMsg c, true⟩] else [])
  ∧ s.nextPid ∉ keysOf s.sessions
  ∧ s.nextPid ∉ keysOf s.completedSessions
  ∧ (executeCommand cm c now s).sessions
      = (if cm.isCommandBlocked c then s.sessions
         else s.sessions ++ [(s.nextPid, ⟨s.nextPid, "", false, now⟩)])
  ∧ listSessions (executeCommand cm c now s) m
      = (if cm.isCommandBlocked c then listSessions s m
         else listSessions s m ++ [⟨s.nextPid, false, (m - now) / 1000⟩])
  ∧ (executeCommand cm c now s).nextPid
      = (if cm.isCommandBlocked c then s.nextPid else s.nextPid + 1) := by
  obtain ⟨h1, hs, hc, hb, hd⟩ := hinv
  have hfs : s.nextPid ∉ keysOf s.sessions :=
    fun hk => absurd (hs _ hk).2 (by omega)
  have hfc : s.nextPid ∉ keysOf s.completedSessions :=
    fun hk => absurd (hc _ hk).2 (by omega)
  have hiff : cm.isCommandBlocked c = true
      ↔ ∃ b ∈ cm.blockedCommands, containsSub (lowerStr b) (lowerStr c) = true := by
    unfold CommandManager.isCommandBlocked
    simp [List.any_eq_true]
  refine ⟨hiff, ?_, hfs, hfc, ?_, ?_, ?_⟩ <;>
    (unfold executeCommand
     split <;> rename_i hcond <;>
       simp [hcond, setA_of_not_mem _ _ _ hfs, listSessions])

/-- Witness for the claim C3 theorem: the gate verdict and result log of a
concrete blocked command in the initial state. -/
theorem executeCommand_gate_spec_witness :
    (executeCommand defaultCM "sudo ls" 0 initTM).results
      = initTM.results
        ++ (if defaultCM.isCommandBlocked "sudo ls" then
              [⟨-1, blockedMsg "sudo ls", true⟩] else []) :=
  (executeCommand_gate_spec defaultCM initTM "sudo ls" 0 0 tminv_init).2.1

/-- The session identifiers allocated, in call order, while running an
event sequence from state `s` (blocked commands allocate nothing and answer
with the `-1` sentinel instead). -/
def allocIds (cm : CommandManager) : TMState → List Event → List Nat
  | _, [] => []
  | s, e :: rest =>
    (match e with
     | .exec c _ => if cm.isCommandBlocked c then [] else [s.nextPid]
     | _ => []) ++ allocIds cm (step cm s e) rest

lemma step_nextPid (cm : CommandManager) (s : TMState) (e : Event) :
    (step cm s e).nextPid
      = (match e with
         | .exec c _ =>
           if cm.isCommandBlocked c then s.nextPid else s.nextPid + 1
         | _ => s.nextPid) := by
  cases e with
  | exec c now =>
    simp only [step]
    unfold executeCommand
    split <;> simp_all
  | data pid chunk =>
    simp only [step]
    cases List.lookup pid s.buffers <;> rfl
  | exited pid code now =>
    simp only [step]
    cases List.lookup pid s.sessions <;> rfl
  | term pid now =>
    simp only [step]
    unfold forceTerminate
    cases List.lookup pid s.sessions <;> rfl
  | timer pid =>
    simp only [step]
    split <;> rfl

lemma allocIds_eq_range' (cm : CommandManager) (evts : List Event) (s : TMState) :
    allocIds cm s evts = List.range' s.nextPid (allocIds cm s evts).length := by
  induction evts generalizing s with
  | nil => rfl
  | cons e rest ih =>
    have hnext := step_nextPid cm s e
    cases e with
    | exec c now =>
      by_cases hbl : cm.isCommandBlocked c
      · simp only [allocIds, hbl, if_true, List.nil_append]
        rw [ih (step cm s (Event.exec c now))]
        simp only [hnext, hbl, if_true]
        rw [List.length_range']
      · simp only [allocIds, hbl, if_false, List.cons_append, List.nil_append]
        rw [ih (step cm s (Event.exec c now))]
        simp only [hnext, hbl, if_false]
        simp [List.range']
    | data pid chunk =>
      simp only [allocIds, List.nil_append]
      rw [ih (step cm s (Event.data pid chunk))]
      simp only [hnext]
      rw [List.length_range']
    | exited pid code now =>
      simp only [allocIds, List.nil_append]
      rw [ih (step cm s (Event.exited pid code now))]
      simp only [hnext]
      rw [List.length_range']
    | term pid now =>
      simp only [allocIds, List.nil_append]
      rw [ih (step cm s (Event.term pid now))]
      simp only [hnext]
      rw [List.length_range']
    | timer pid =>
      simp only [allocIds, List.nil_append]
      rw [ih (step cm s (Event.timer pid))]
      simp only [hnext]
      rw [List.length_range']

/-- Claim C5: across any sequence of events from process start, the session
identifiers handed out by `executeCommand` are exactly `1, 2, 3, …` in call
order — strictly increasing, starting at 1, never negative and never
reused. -/
theorem sessionIds_strictly_increasing (cm : CommandManager) (evts : List Event) :
    allocIds cm initTM evts
      = List.range' 1 (allocIds cm initTM evts).length
  ∧ List.Pairwise (· < ·) (allocIds cm initTM evts)
  ∧ ∀ i ∈ allocIds cm initTM evts, 1 ≤ i := by
  have h := allocIds_eq_range' cm evts initTM
  refine ⟨h, ?_, ?_⟩
  · rw [h]
    exact List.pairwise_lt_range' _ _ 1 (by omega)
  · intro i hi
    rw [h] at hi
    have := List.mem_range'_1.mp hi
    exact this.1

/-- Claim C6: in every reachable state no identifier is both active and
archived, and a process-exit notification for an identifier that is no
longer active (for instance one already archived by `forceTerminate`) is a
complete no-op: it does not overwrite the archived record. -/
theorem active_archived_disjoint (cm : CommandManager) (evts : List Event)
    (pid : Nat) (code : Int) (now : Nat) :
    (∀ k ∈ keysOf (replay cm evts).sessions,
        k ∉ keysOf (replay cm evts).completedSessions)
  ∧ (pid ∉ keysOf (replay cm evts).sessions →
        step cm (replay cm evts) (Event.exited pid code now) = replay cm evts) := by
  refine ⟨(tminv_replay cm evts).2.2.2.2, ?_⟩
  intro hpid
  simp only [step]
  rw [(lookup_eq_none_iff _ _).mpr hpid]

/-- Witness for the claim C6 theorem: a concrete exit notification for a
pid that was never active is a no-op on the initial state. -/
theorem active_archived_disjoint_witness :
    step defaultCM (replay defaultCM []) (Event.exited 7 0 0)
      = replay defaultCM [] :=
  (active_archived_disjoint defaultCM [] 7 0 0).2 (by decide)

/-- Claim C10: the deadline timer is the sole successful resolution path of
a non-blocked `executeCommand`: output chunks, process exits and
force-terminations never resolve anything, the call itself resolves only a
blocked command, and a pending timer firing appends exactly one result
carrying the buffer contents at firing time. -/
theorem result_resolution_only_at_timer (cm : CommandManager) (s : TMState)
    (pid : Nat) (chunk : String) (code : Int) (now : Nat) (c : String) :
    (step cm s (Event.data pid chunk)).results = s.results
  ∧ (step cm s (Event.exited pid code now)).results = s.results
  ∧ (step cm s (Event.term pid now)).results = s.results
  ∧ (step cm s (Event.exec c now)).results
      = s.results
        ++ (if cm.isCommandBlocked c then [⟨-1, blockedMsg c, true⟩] else [])
  ∧ (step cm s (Event.exec c now)).pending
      = (if cm.isCommandBlocked c then s.pending else s.pending ++ [s.nextPid])
  ∧ (step cm s (Event.timer pid)).results
      = s.results
        ++ (if pid ∈ s.pending then [⟨(pid : Int), bufferOf s pid, false⟩]
            else []) := by
  refine ⟨?_, ?_, ?_, ?_, ?_, ?_⟩
  · simp only [step]
    cases List.lookup pid s.buffers <;> rfl
  · simp only [step]
    cases List.lookup pid s.sessions <;> rfl
  · simp only [step]
    unfold forceTerminate
    cases List.lookup pid s.sessions <;> rfl
  · simp only [step]
    unfold executeCommand
    split <;> simp_all
  · simp only [step]
    unfold executeCommand
    split <;> simp_all
  · simp only [step]
    split <;> simp_all
